import Mathlib

/-!
Verification of the SpendLens expense-logging application (src/logic.py, src/models.py)
against its natural-language specification.

The Python sources are shallowly embedded as executable Lean definitions:
  - text is modelled as String / List Char (the application only exercises ASCII
    text, so Python str.lower / str.upper are modelled by their ASCII action);
  - Python float amounts are modelled as rationals, following the data model of
    the specification ("amount: non-negative decimal");
  - datetime values are modelled as a calendar day (an integer) together with a
    time-of-day component, since the code only ever shifts whole days and
    serialises the calendar day;
  - the third-party word2number and dateparser libraries are not part of the
    repository: word2number is modelled from the specification, and dateparser
    is modelled as an abstract resolver parameter of parse_date.
-/

namespace SpendLens

/-! ### Character and string helpers (Python str.lower, str.upper, substring test) -/

/-- Python str.lower on a character, modelled on its ASCII action. -/
def pyToLower (c : Char) : Char := c.toLower

/-- Python str.upper on a character, modelled on its ASCII action. -/
def pyToUpper (c : Char) : Char := c.toUpper

/-- Python str.lower on a string. -/
def pyLowerStr (s : String) : String := String.mk (s.toList.map pyToLower)

/-- Python str.upper on a string. -/
def pyUpperStr (s : String) : String := String.mk (s.toList.map pyToUpper)

/-- Substring test on character lists: true when needle occurs contiguously in hay. -/
def listHasSub : List Char → List Char → Bool
  | [], needle => needle.isEmpty
  | h :: t, needle => needle.isPrefixOf (h :: t) || listHasSub t needle

/-- Python membership test s2 in s1 (contiguous substring). -/
def strContains (s pat : String) : Bool := listHasSub s.toList pat.toList

/-! ### Amount extraction: ExpenseParser.parse_amount (src/logic.py lines 103-140)

The Python code cleans the text (drops commas and dollar signs, lowercases),
searches for the regular expression b(d+(.d{1,2})?)b (word-boundary anchored
number, using backslash-b and backslash-d), and falls back to the word2number
library when the regex finds nothing; any failure yields the sentinel 0.0. -/

/-- Python regex word character (backslash-w), ASCII action: letters, digits, underscore. -/
def isWordChar (c : Char) : Bool := c.isAlphanum || c == '_'

/-- Splits off the maximal leading run of ASCII digits. -/
def takeDigits : List Char → List Char × List Char
  | [] => ([], [])
  | c :: cs =>
    if c.isDigit then
      let p := takeDigits cs
      (c :: p.1, p.2)
    else ([], c :: cs)

/-- Numeric value of a digit string, as in Python float applied to the matched group. -/
def digitsVal (l : List Char) : Nat :=
  l.foldl (fun a c => a * 10 + (c.toNat - 48)) 0

/-- Value of a matched number with integer digits ds and fractional digits fs. -/
def tokenVal (ds fs : List Char) : ℚ :=
  (digitsVal ds : ℚ) + (digitsVal fs : ℚ) / 10 ^ fs.length

/-- Word-boundary test for the position right after a match: true at end of input
or before a non-word character. -/
def trailOk : List Char → Bool
  | [] => true
  | c :: _ => !isWordChar c

/-- Word-boundary test before a position, given the preceding character (none at
the start of the text). -/
def boundaryOkB : Option Char → Bool
  | none => true
  | some p => !isWordChar p

/-- True when the list starts with an ASCII digit. -/
def headDigit : List Char → Bool
  | [] => false
  | c :: _ => c.isDigit

/-- Attempt of the regex b(d+(.d{1,2})?)b at a fixed start position whose head is a
digit and whose left word-boundary has already been checked. Returns the integer and
fractional digit groups of the match. Mirrors the backtracking of Python re: the
greedy fractional group is dropped when no word boundary follows it (the dot itself
is a word boundary for the integer-only fallback), and the whole position fails only
when the digit run is directly followed by a word character. -/
def matchNumAt (cs : List Char) : Option (List Char × List Char) :=
  let p := takeDigits cs
  if p.1.isEmpty then none
  else
    match p.2 with
    | [] => some (p.1, [])
    | c :: r2 =>
      if c == '.' then
        let q := takeDigits r2
        if (q.1.length == 1 || q.1.length == 2) && trailOk q.2 then
          some (p.1, q.1)
        else
          some (p.1, [])
      else if trailOk (c :: r2) then some (p.1, []) else none

/-- Left-to-right scan of re.search: tries every position whose character is a digit
preceded by a word boundary, returning the first successful match. prev is the
character before the current position, none at the start of the text. -/
def searchFrom : Option Char → List Char → Option (List Char × List Char)
  | _, [] => none
  | prev, c :: cs =>
    if c.isDigit && boundaryOkB prev then
      match matchNumAt (c :: cs) with
      | some m => some m
      | none => searchFrom (some c) cs
    else searchFrom (some c) cs

/-- re.search of b(d+(.d{1,2})?)b over a character list. -/
def regexSearch (cs : List Char) : Option (List Char × List Char) :=
  searchFrom none cs

/-- Cleaning step of parse_amount: drop commas and dollar signs, lowercase. -/
def cleanStr (s : String) : String :=
  String.mk ((s.toList.filter (fun c => !(c == ',') && !(c == '$'))).map pyToLower)

/-! ### Word-to-number fallback.

Modelled from the spec: the word2number library (w2n.word_to_num) is a third-party
dependency, not part of the repository sources. Following the specification
(section 4.1), the cleaned text is interpreted as an English number word/phrase via
a word-to-number lookup; words that are not number words are ignored, and when no
number word at all is recognized the lookup fails (the Python library raises, which
parse_amount converts to the 0.0 sentinel). -/

/-- Recognized English number words. -/
inductive NumWord where
  | small (n : Nat)
  | hundred
  | thousand
  | million
deriving DecidableEq, Repr

/-- Lookup of a single word in the number system; none for unrecognized words. -/
def numWordOf (w : String) : Option NumWord :=
  if w = "zero" then some (.small 0)
  else if w = "one" then some (.small 1)
  else if w = "two" then some (.small 2)
  else if w = "three" then some (.small 3)
  else if w = "four" then some (.small 4)
  else if w = "five" then some (.small 5)
  else if w = "six" then some (.small 6)
  else if w = "seven" then some (.small 7)
  else if w = "eight" then some (.small 8)
  else if w = "nine" then some (.small 9)
  else if w = "ten" then some (.small 10)
  else if w = "eleven" then some (.small 11)
  else if w = "twelve" then some (.small 12)
  else if w = "thirteen" then some (.small 13)
  else if w = "fourteen" then some (.small 14)
  else if w = "fifteen" then some (.small 15)
  else if w = "sixteen" then some (.small 16)
  else if w = "seventeen" then some (.small 17)
  else if w = "eighteen" then some (.small 18)
  else if w = "nineteen" then some (.small 19)
  else if w = "twenty" then some (.small 20)
  else if w = "thirty" then some (.small 30)
  else if w = "forty" then some (.small 40)
  else if w = "fifty" then some (.small 50)
  else if w = "sixty" then some (.small 60)
  else if w = "seventy" then some (.small 70)
  else if w = "eighty" then some (.small 80)
  else if w = "ninety" then some (.small 90)
  else if w = "hundred" then some .hundred
  else if w = "thousand" then some .thousand
  else if w = "million" then some .million
  else none

/-- Standard accumulation of a number-word sequence into a value. -/
def combineWords : List NumWord → Nat → Nat → Nat
  | [], total, current => total + current
  | .small n :: ws, total, current => combineWords ws total (current + n)
  | .hundred :: ws, total, current => combineWords ws total (current * 100)
  | .thousand :: ws, total, current => combineWords ws (total + current * 1000) 0
  | .million :: ws, total, current => combineWords ws (total + current * 1000000) 0

/-- Splits a character list into space-separated words, dropping empty words, as
Python str.split does. acc carries the current word in reverse. -/
def splitWordsAux : List Char → List Char → List String
  | [], acc => if acc.isEmpty then [] else [String.mk acc.reverse]
  | c :: cs, acc =>
    if c == ' ' then
      if acc.isEmpty then splitWordsAux cs []
      else String.mk acc.reverse :: splitWordsAux cs []
    else splitWordsAux cs (c :: acc)

/-- Whitespace word splitting of Python str.split. -/
def splitWords (s : String) : List String := splitWordsAux s.toList []

/-- Modelled from the spec: word-to-number lookup over the cleaned text (the
word2number library is missing from the sources). Unrecognized words are ignored;
with no recognized word at all the lookup fails. -/
def wordToNum (s : String) : Option Nat :=
  let ws := (splitWords s).filterMap numWordOf
  if ws.isEmpty then none else some (combineWords ws 0 0)

/-- ExpenseParser.parse_amount: empty text yields 0.0; otherwise the cleaned text is
searched for the first word-bounded numeric token; failing that, the word-to-number
fallback runs, and any miss yields the 0.0 sentinel (the Python except path). -/
def parse_amount (text : String) : ℚ :=
  if text = "" then 0
  else
    match regexSearch (cleanStr text).toList with
    | some m => tokenVal m.1 m.2
    | none =>
      match wordToNum (cleanStr text) with
      | some n => (n : ℚ)
      | none => 0

/-- Evaluation rule for parse_amount when the regex search succeeds. -/
theorem parse_amount_of_regex (text : String) (m : List Char × List Char)
    (hne : text ≠ "") (h : regexSearch (cleanStr text).toList = some m) :
    parse_amount text = tokenVal m.1 m.2 := by
  simp only [parse_amount, if_neg hne, h]

/-- Evaluation rule for parse_amount when the regex fails and the word lookup hits. -/
theorem parse_amount_of_words (text : String) (n : Nat)
    (hne : text ≠ "") (h : regexSearch (cleanStr text).toList = none)
    (hw : wordToNum (cleanStr text) = some n) :
    parse_amount text = (n : ℚ) := by
  simp only [parse_amount, if_neg hne, h, hw]

/-- Evaluation rule for parse_amount when nothing is recognized. -/
theorem parse_amount_of_miss (text : String)
    (h : regexSearch (cleanStr text).toList = none)
    (hw : wordToNum (cleanStr text) = none) :
    parse_amount text = 0 := by
  by_cases hne : text = ""
  · simp [parse_amount, hne]
  · simp only [parse_amount, if_neg hne, h, hw]

/-! ### Date extraction: ExpenseParser.parse_date (src/logic.py lines 142-204)

Python datetime values are modelled by a calendar day (an integer day number)
together with a time-of-day component; datetime.now() is the now parameter, and
timedelta(days=1) shifts the day while keeping the time of day. The dateparser
library is not part of the repository, so it is modelled as an abstract resolver
taking the bias from the PREFER_DATES_FROM setting and the raw text, and returning
none when it cannot resolve (dateparser.parse returning None). -/

/-- Python datetime, reduced to the fields the code observes: the calendar day and
the time of day (in seconds). -/
structure PyDateTime where
  day : Int
  sec : Nat
deriving DecidableEq, Repr

/-- Bias passed to the resolver through the PREFER_DATES_FROM setting. -/
inductive Bias where
  | past
  | future
  | noBias
deriving DecidableEq, Repr

/-- ExpenseParser.parse_date. Empty text returns now. The lowercased text is
scanned for keywords in order: yesterday and tomorrow return immediately; last/ago
(resp. next) consult the resolver with past (resp. future) bias and return its
result when it resolves; in every remaining case, including a failed biased
resolution, control falls through to an unbiased resolver call, and now is the
final fallback. -/
def parse_date (resolver : Bias → String → Option PyDateTime)
    (now : PyDateTime) (text : String) : PyDateTime :=
  if text = "" then now
  else
    let tl := pyLowerStr text
    if strContains tl "yesterday" then ⟨now.day - 1, now.sec⟩
    else if strContains tl "tomorrow" then ⟨now.day + 1, now.sec⟩
    else
      let branch : Option PyDateTime :=
        if strContains tl "last" || strContains tl "ago" then resolver .past text
        else if strContains tl "next" then resolver .future text
        else none
      match branch with
      | some d => d
      | none => (resolver .noBias text).getD now

/-! ### Data model: models.py -/

/-- Expense record (models.py lines 11-25). The notes field is declared str in the
dataclass, but Expense.from_dict can populate it with the float NaN that pandas
yields for a blank Notes cell; the field is therefore an Option String, with some s
for the string s and none for that NaN value. -/
structure Expense where
  date : PyDateTime
  category : String
  amount : ℚ
  notes : Option String
deriving DecidableEq, Repr

/-- Aggregated spending for one category (models.py lines 56-68). -/
structure CategoryTotal where
  category : String
  total : ℚ
  count : Nat
deriving DecidableEq, Repr

/-! ### Storage: ExcelStorage (src/logic.py lines 234-313) and the Excel layer.

The backing xlsx file is modelled at the level of the tabular data the code reads
and writes through pandas: a list of rows over the four named columns, or a missing
or unreadable file. A string cell is an Option String, none playing the role of a
blank cell. pd.read_excel runs with its default NA handling (keep_default_na), so
on the read side every cell whose text is one of the default NA strings (the empty
string among them) is converted to NaN before any filtering; readCell models that
conversion. The Date/Time column holds the ISO formatted calendar-day string
written by Expense.to_dict; since the code only ever round-trips it through
strftime/strptime with the fixed format %Y-%m-%d (never an NA string), the string
is modelled by the calendar day it denotes. The amount cell is modelled as always
holding a number. -/

/-- One row of the backing table. -/
structure Row where
  dateCell : Int
  categoryCell : Option String
  amountCell : ℚ
  notesCell : Option String
deriving DecidableEq, Repr

/-- State of the backing file. -/
inductive ExcelFile where
  | missing
  | corrupt
  | table (rows : List Row)
deriving DecidableEq, Repr

/-- Default NA values of pandas read_excel (keep_default_na): any cell holding one
of these strings is read back as NaN. -/
def naStrings : List String :=
  ["", "#N/A", "#N/A N/A", "#NA", "-1.#IND", "-1.#QNAN", "-NaN", "-nan",
   "1.#IND", "1.#QNAN", "<NA>", "N/A", "NA", "NULL", "NaN", "None", "n/a",
   "nan", "null"]

/-- Reading a string cell through pandas: a blank cell stays NaN (none), and a cell
whose text is a default NA string is converted to NaN as well. -/
def readCell (c : Option String) : Option String :=
  match c with
  | none => none
  | some s => if s ∈ naStrings then none else some s

/-- Expense.to_dict (models.py lines 27-34): the date is serialised with
strftime %Y-%m-%d, which keeps the calendar day and discards the time of day;
NaN notes (none) surface as a blank cell. -/
def toRow (e : Expense) : Row :=
  { dateCell := e.date.day
    categoryCell := some e.category
    amountCell := e.amount
    notesCell := e.notes }

/-- Expense.from_dict (models.py lines 36-50) applied to a row as pandas delivers
it: strptime of a %Y-%m-%d string gives midnight of that calendar day; the category
falls back to Uncategorized only when the cell read as NaN (unreachable after the
load filter); a Notes cell read as NaN stays NaN, since the row always carries the
Notes key and data.get never takes its default. -/
def fromRow (r : Row) : Expense :=
  { date := ⟨r.dateCell, 0⟩
    category := (readCell r.categoryCell).getD "Uncategorized"
    amount := r.amountCell
    notes := readCell r.notesCell }

/-- Row filter of ExcelStorage.load_expenses (src/logic.py lines 268-271):
pandas notna on the category column as read_excel delivers it (NA strings already
converted to NaN), and str.upper different from TOTAL. -/
def rowKeep (r : Row) : Bool :=
  match readCell r.categoryCell with
  | none => false
  | some c => !(pyUpperStr c == "TOTAL")

/-- ExcelStorage.load_expenses (src/logic.py lines 250-279): a missing file and a
failed read both give the empty list; otherwise the filtered rows are parsed. -/
def load_expenses (f : ExcelFile) : List Expense :=
  match f with
  | .missing => []
  | .corrupt => []
  | .table rows => (rows.filter rowKeep).map fromRow

/-- ExcelStorage.save_expenses (src/logic.py lines 281-296): overwrites the backing
file with exactly the rows of to_dict applied to the given expenses. -/
def save_expenses (es : List Expense) : ExcelFile :=
  .table (es.map toRow)

/-- ExcelStorage.add_expense (src/logic.py lines 298-308): load, append, save. -/
def add_expense (f : ExcelFile) (e : Expense) : ExcelFile :=
  save_expenses (load_expenses f ++ [e])

/-- ExcelStorage.clear_all (src/logic.py lines 310-313). -/
def clear_all : ExcelFile := save_expenses []

/-! ### Analysis: ExpenseAnalyzer (src/logic.py lines 316-372) -/

/-- One step of the aggregation loop of calculate_category_totals: the accumulator
is the category_data dict in insertion order; an existing category is updated in
place, a new one is appended. -/
def addExpense (acc : List CategoryTotal) (e : Expense) : List CategoryTotal :=
  match acc with
  | [] => [⟨e.category, e.amount, 1⟩]
  | c :: cs =>
    if c.category = e.category then ⟨c.category, c.total + e.amount, c.count + 1⟩ :: cs
    else c :: addExpense cs e

/-- Stable insertion for descending sort by total: x passes over strictly larger
totals and stops before the first total less than or equal to its own, so elements
with equal totals keep their relative order, as Python list.sort with reverse=True
does. -/
def insertDesc (x : CategoryTotal) : List CategoryTotal → List CategoryTotal
  | [] => [x]
  | y :: ys => if x.total < y.total then y :: insertDesc x ys else x :: y :: ys

/-- Stable sort by total descending (Python totals.sort(key total, reverse)). -/
def sortDesc : List CategoryTotal → List CategoryTotal
  | [] => []
  | x :: xs => insertDesc x (sortDesc xs)

/-- ExpenseAnalyzer.calculate_category_totals (src/logic.py lines 322-352). -/
def calculate_category_totals (es : List Expense) : List CategoryTotal :=
  sortDesc (es.foldl addExpense [])

/-- ExpenseAnalyzer.get_total_spending (src/logic.py lines 354-358). -/
def get_total_spending (es : List Expense) : ℚ :=
  (es.map Expense.amount).sum

/-! ### Controller: ExpenseController.export_to_excel (src/logic.py lines 645-669).

The controller loads the stored expenses, appends one synthetic TOTAL record whose
amount is the total spending of the loaded records, and saves the result to the
export path (the ExcelFormatter stage only applies styling and is presentation
only). The written file is returned. -/

def export_to_excel (now : PyDateTime) (storageFile : ExcelFile) : ExcelFile :=
  let expenses := load_expenses storageFile
  let totalExpense : Expense :=
    { date := now, category := "TOTAL", amount := get_total_spending expenses,
      notes := some "" }
  save_expenses (expenses ++ [totalExpense])

/-- Rows of a backing file, empty for a missing or unreadable file. -/
def rowsOf : ExcelFile → List Row
  | .table rows => rows
  | _ => []

/-! ### Storage lemmas -/

theorem pyUpperStr_TOTAL : pyUpperStr "TOTAL" = "TOTAL" := by decide

theorem ne_total_of_upper_ne {c : String} (h : pyUpperStr c ≠ "TOTAL") : c ≠ "TOTAL" := by
  intro hc
  subst hc
  exact h (by decide)

theorem readCell_some {c : Option String} {s : String} (h : readCell c = some s) :
    s ∉ naStrings := by
  cases c with
  | none => exact Option.noConfusion h
  | some t =>
    simp only [readCell] at h
    by_cases hm : t ∈ naStrings
    · rw [if_pos hm] at h
      exact Option.noConfusion h
    · rw [if_neg hm] at h
      injection h with h2
      subst h2
      exact hm

theorem readCell_eq_self {s : String} (h : s ∉ naStrings) :
    readCell (some s) = some s := by
  simp [readCell, h]

/-- Preconditions under which a record survives the save / load trip unchanged:
a category that is no NA string and not TOTAL case-insensitively, a midnight date,
and notes that are either NaN or a string that is no NA string. -/
def roundTripSafe (e : Expense) : Prop :=
  e.category ∉ naStrings ∧ pyUpperStr e.category ≠ "TOTAL" ∧ e.date.sec = 0 ∧
    ∀ s, e.notes = some s → s ∉ naStrings

/-- Every expense returned by load_expenses is round-trip safe: its category read
as a non-NA string whose uppercase form is not TOTAL, its date is at midnight, and
its notes are NaN or a non-NA string. -/
theorem mem_load_expenses {f : ExcelFile} {e : Expense} (he : e ∈ load_expenses f) :
    roundTripSafe e := by
  cases f with
  | missing => simp [load_expenses] at he
  | corrupt => simp [load_expenses] at he
  | table rows =>
    simp only [load_expenses, List.mem_map, List.mem_filter] at he
    obtain ⟨r, ⟨hr, hk⟩, hre⟩ := he
    cases hcat : readCell r.categoryCell with
    | none => simp only [rowKeep, hcat] at hk; exact absurd hk (by simp)
    | some c =>
      simp only [rowKeep, hcat, Bool.not_eq_true', beq_eq_false_iff_ne] at hk
      have hec : e.category = c := by rw [← hre]; simp [fromRow, hcat]
      have hsec : e.date.sec = 0 := by rw [← hre]; simp [fromRow]
      have hnotes : ∀ s, e.notes = some s → s ∉ naStrings := by
        intro s hs
        rw [← hre] at hs
        simp only [fromRow] at hs
        exact readCell_some hs
      exact ⟨hec ▸ readCell_some hcat, hec ▸ hk, hsec, hnotes⟩

theorem fromRow_toRow {e : Expense} (h : roundTripSafe e) : fromRow (toRow e) = e := by
  obtain ⟨hcat, -, hsec, hnotes⟩ := h
  cases e with
  | mk d cat a n =>
    cases d with
    | mk day sec =>
      simp only at hsec
      subst hsec
      simp only at hcat hnotes
      cases n with
      | none =>
        simp [fromRow, toRow, readCell_eq_self hcat,
          show readCell none = none from rfl]
      | some s =>
        have hs : s ∉ naStrings := hnotes s rfl
        simp [fromRow, toRow, readCell_eq_self hcat, readCell_eq_self hs]

theorem rowKeep_toRow {e : Expense} (hna : e.category ∉ naStrings)
    (h : pyUpperStr e.category ≠ "TOTAL") :
    rowKeep (toRow e) = true := by
  simp [rowKeep, toRow, readCell_eq_self hna, h]

/-- Saving round-trip-safe records, then loading, returns exactly the saved
records. -/
theorem load_save {es : List Expense}
    (h : ∀ e ∈ es, roundTripSafe e) :
    load_expenses (save_expenses es) = es := by
  induction es with
  | nil => rfl
  | cons e es ih =>
    have h1 := h e (by simp)
    have hrest : ∀ x ∈ es, roundTripSafe x :=
      fun x hx => h x (by simp [hx])
    have ihr := ih hrest
    simp only [save_expenses, load_expenses, List.map_cons, List.filter_cons,
      rowKeep_toRow h1.1 h1.2.1, if_pos] at *
    simp only [List.map_cons, fromRow_toRow h1, List.cons.injEq, true_and]
    exact ihr

/-- Records returned by load always satisfy the round-trip preconditions. -/
theorem load_preconditions {f : ExcelFile} :
    ∀ e ∈ load_expenses f, roundTripSafe e :=
  fun _ he => mem_load_expenses he

/-! ### Claim C3: the yesterday / tomorrow / empty branches of parse_date -/

/-- C3: for every resolver and every reference instant, text containing the word
yesterday (case-insensitively) parses to now minus one day no matter what else it
contains; text without yesterday but with tomorrow parses to now plus one day; and
empty text parses to now. The result of the first two branches is independent of
the resolver, so they short-circuit before any resolution is consulted. -/
theorem parse_date_keyword_branches
    (resolver : Bias → String → Option PyDateTime) (now : PyDateTime) (text : String) :
    (strContains (pyLowerStr text) "yesterday" = true →
      parse_date resolver now text = ⟨now.day - 1, now.sec⟩) ∧
    (strContains (pyLowerStr text) "yesterday" = false →
      strContains (pyLowerStr text) "tomorrow" = true →
      parse_date resolver now text = ⟨now.day + 1, now.sec⟩) ∧
    parse_date resolver now "" = now := by
  refine ⟨?_, ?_, by simp [parse_date]⟩
  · intro hy
    by_cases hne : text = ""
    · subst hne; exact absurd hy (by decide)
    · simp [parse_date, hne, hy]
  · intro hy ht
    by_cases hne : text = ""
    · subst hne; exact absurd ht (by decide)
    · simp [parse_date, hne, hy, ht]

/-- Witness for C3 at concrete inputs. -/
theorem parse_date_keyword_branches_witness :
    parse_date (fun _ _ => none) ⟨100, 7⟩ "Spent money Yesterday" = ⟨99, 7⟩ ∧
    parse_date (fun _ _ => none) ⟨100, 7⟩ "Will spend tomorrow" = ⟨101, 7⟩ ∧
    parse_date (fun _ _ => none) ⟨100, 7⟩ "" = ⟨100, 7⟩ :=
  ⟨(parse_date_keyword_branches (fun _ _ => none) ⟨100, 7⟩ "Spent money Yesterday").1
      (by decide),
   (parse_date_keyword_branches (fun _ _ => none) ⟨100, 7⟩ "Will spend tomorrow").2.1
      (by decide) (by decide),
   (parse_date_keyword_branches (fun _ _ => none) ⟨100, 7⟩ "").2.2⟩

/-! ### Claim C4: behaviour of parse_date when the past-biased resolution fails -/

/-- Resolver exhibiting the fall-through: it fails under past or future bias and
resolves to day 42 without bias. -/
def cexResolver : Bias → String → Option PyDateTime
  | .noBias, _ => some ⟨42, 0⟩
  | _, _ => none

/-- C4 counterexample: on text containing ago (and neither yesterday nor tomorrow),
when the past-biased resolution fails the code does not return today: it consults
the general resolver and returns its result, here day 42 rather than day 0. -/
theorem parse_date_past_fail_cex :
    strContains (pyLowerStr "3 days ago") "ago" = true ∧
    strContains (pyLowerStr "3 days ago") "yesterday" = false ∧
    strContains (pyLowerStr "3 days ago") "tomorrow" = false ∧
    cexResolver .past "3 days ago" = none ∧
    parse_date cexResolver ⟨0, 0⟩ "3 days ago" = ⟨42, 0⟩ ∧
    (⟨42, 0⟩ : PyDateTime) ≠ ⟨0, 0⟩ := by
  decide

/-- C4 (amended): for text containing last or ago but neither yesterday nor
tomorrow, when the past-biased resolver fails the code falls through to one more
resolution attempt with the general (unbiased) resolver, returning its result when
it succeeds and today only when it also fails. -/
theorem parse_date_past_fail_general
    (resolver : Bias → String → Option PyDateTime) (now : PyDateTime) (text : String)
    (hy : strContains (pyLowerStr text) "yesterday" = false)
    (ht : strContains (pyLowerStr text) "tomorrow" = false)
    (hla : (strContains (pyLowerStr text) "last" || strContains (pyLowerStr text) "ago") = true)
    (hp : resolver .past text = none) :
    parse_date resolver now text = (resolver .noBias text).getD now := by
  by_cases hne : text = ""
  · subst hne; exact absurd hla (by decide)
  · simp [parse_date, hne, hy, ht, hla, hp]

/-- Witness for C4 at a concrete input. -/
theorem parse_date_past_fail_general_witness :
    parse_date cexResolver ⟨0, 0⟩ "last friday" = ⟨42, 0⟩ :=
  (parse_date_past_fail_general cexResolver ⟨0, 0⟩ "last friday"
    (by decide) (by decide) (by decide) (by decide)).trans (by decide)

/-! ### Claim C5: the guarantees of load_expenses -/

/-- C5: load returns the empty list when the backing file is missing or unreadable,
and no returned record has an empty or missing category or one equal to TOTAL
case-insensitively, even when such rows are directly present in the backing file:
a blank category cell, and equally a cell holding the empty string (which the
default NA handling of pandas reads back as NaN), is dropped by the notna filter,
and the TOTAL filter compares the uppercased category. -/
theorem load_expenses_filter_guarantees :
    load_expenses .missing = [] ∧ load_expenses .corrupt = [] ∧
    ∀ rows e, e ∈ load_expenses (.table rows) →
      e.category ≠ "" ∧ pyUpperStr e.category ≠ "TOTAL" := by
  refine ⟨rfl, rfl, fun rows e he => ?_⟩
  obtain ⟨hna, hct, -, -⟩ := mem_load_expenses he
  exact ⟨fun h0 => hna (by rw [h0]; decide), hct⟩

/-- Witness for C5 at a concrete backing file that directly contains a blank
category row, an empty-string category row and a TOTAL row besides one good row. -/
theorem load_expenses_filter_guarantees_witness :
    Expense.category ({ date := ⟨3, 0⟩, category := "Food", amount := 9,
                        notes := some "z" } : Expense) ≠ "" ∧
    pyUpperStr (Expense.category ({ date := ⟨3, 0⟩, category := "Food", amount := 9,
                                    notes := some "z" } : Expense)) ≠ "TOTAL" :=
  load_expenses_filter_guarantees.2.2
    [{ dateCell := 3, categoryCell := some "Food", amountCell := 9,
       notesCell := some "z" },
     { dateCell := 4, categoryCell := none, amountCell := 1, notesCell := none },
     { dateCell := 5, categoryCell := some "", amountCell := 2, notesCell := none },
     { dateCell := 6, categoryCell := some "total", amountCell := 3, notesCell := none }]
    { date := ⟨3, 0⟩, category := "Food", amount := 9, notes := some "z" }
    (by decide)

/-! ### Claim C8: the save / load round trip -/

/-- C8 counterexample: the date is serialised by strftime with the date-only format
%Y-%m-%d, so a record whose datetime carries a nonzero time of day does not come
back equal: loading after saving returns the record at midnight of the same day.
Notes are equally lossy: empty-string notes are read back as NaN by the default NA
conversion of pandas. -/
theorem save_load_round_trip_cex :
    load_expenses (save_expenses
        [{ date := ⟨0, 60⟩, category := "Food", amount := 10, notes := some "x" }]) =
      [{ date := ⟨0, 0⟩, category := "Food", amount := 10, notes := some "x" }] ∧
    ({ date := ⟨0, 0⟩, category := "Food", amount := 10, notes := some "x" } : Expense) ≠
      { date := ⟨0, 60⟩, category := "Food", amount := 10, notes := some "x" } ∧
    load_expenses (save_expenses
        [{ date := ⟨0, 0⟩, category := "Food", amount := 10, notes := some "" }]) =
      [{ date := ⟨0, 0⟩, category := "Food", amount := 10, notes := none }] := by
  refine ⟨by decide, by decide, by decide⟩

/-- C8 (amended): for record sets of round-trip-safe records - category not a
pandas NA string and not TOTAL case-insensitively, date at midnight, notes either
NaN or not an NA string, which is the content the tabular serialisation preserves -
loading immediately after saving returns exactly the saved records; and saving what
load returned never changes what a subsequent load returns, so saveAll after load
is idempotent for every backing file. -/
theorem save_load_round_trip :
    (∀ es : List Expense, (∀ e ∈ es, roundTripSafe e) →
      load_expenses (save_expenses es) = es) ∧
    (∀ f : ExcelFile,
      load_expenses (save_expenses (load_expenses f)) = load_expenses f) :=
  ⟨fun _ h => load_save h, fun _ => load_save load_preconditions⟩

/-- Witness for C8 at a concrete record set. -/
theorem save_load_round_trip_witness :
    load_expenses (save_expenses
        [{ date := ⟨5, 0⟩, category := "Gas", amount := 4, notes := some "pump" }]) =
      [{ date := ⟨5, 0⟩, category := "Gas", amount := 4, notes := some "pump" }] :=
  save_load_round_trip.1
    [{ date := ⟨5, 0⟩, category := "Gas", amount := 4, notes := some "pump" }]
    (by
      intro e he
      simp only [List.mem_singleton] at he
      subst he
      refine ⟨by decide, by decide, rfl, ?_⟩
      intro s hs
      injection hs with h2
      subst h2
      decide)

/-- Appending a record whose uppercase category is TOTAL before saving does not
change what load returns, since the load filter strips it. -/
theorem load_save_append_total {es : List Expense}
    (h : ∀ e ∈ es, roundTripSafe e)
    {tot : Expense} (htot : pyUpperStr tot.category = "TOTAL") :
    load_expenses (save_expenses (es ++ [tot])) = es := by
  have h1 : load_expenses (save_expenses es) = es := load_save h
  simp only [save_expenses, load_expenses, List.map_append, List.filter_append] at h1 ⊢
  have hrk : rowKeep (toRow tot) = false := by
    by_cases hm : tot.category ∈ naStrings
    · simp [rowKeep, toRow, readCell, hm]
    · simp [rowKeep, toRow, readCell, hm, htot]
  have h2 : List.filter rowKeep (List.map toRow [tot]) = [] := by
    simp [hrk]
  rw [h2]
  simpa using h1

/-! ### Claim C9: export_to_excel -/

/-- C9: the exported file consists of exactly the loaded record set followed by one
synthetic TOTAL row whose amount is the total spending of the loaded records; the
exported rows contain exactly one TOTAL row; and loading the exported file returns
exactly the previously loaded record set, so the TOTAL row never enters the live
record set. -/
theorem export_to_excel_spec (now : PyDateTime) (f : ExcelFile) :
    rowsOf (export_to_excel now f) =
      (load_expenses f).map toRow ++
        [{ dateCell := now.day, categoryCell := some "TOTAL",
           amountCell := get_total_spending (load_expenses f), notesCell := some "" }] ∧
    (rowsOf (export_to_excel now f)).countP
        (fun r => r.categoryCell == some "TOTAL") = 1 ∧
    load_expenses (export_to_excel now f) = load_expenses f := by
  have hrows : rowsOf (export_to_excel now f) =
      (load_expenses f).map toRow ++
        [{ dateCell := now.day, categoryCell := some "TOTAL",
           amountCell := get_total_spending (load_expenses f), notesCell := some "" }] := by
    simp [export_to_excel, save_expenses, rowsOf, toRow]
  refine ⟨hrows, ?_, ?_⟩
  · rw [hrows, List.countP_append]
    have hz : ((load_expenses f).map toRow).countP
        (fun r => r.categoryCell == some "TOTAL") = 0 := by
      rw [List.countP_eq_zero]
      intro r hrm
      obtain ⟨e, hem, her⟩ := List.mem_map.mp hrm
      obtain ⟨-, hct, -, -⟩ := load_preconditions e hem
      have hcc : r.categoryCell = some e.category := by rw [← her]; rfl
      simp only [hcc, beq_iff_eq, Option.some.injEq]
      exact ne_total_of_upper_ne hct
    rw [hz]
    rfl
  · show load_expenses (save_expenses (load_expenses f ++
      [{ date := now, category := "TOTAL",
         amount := get_total_spending (load_expenses f),
         notes := some "" }])) = load_expenses f
    exact load_save_append_total load_preconditions pyUpperStr_TOTAL

/-! ### Aggregation lemmas -/

/-- Sum of the total fields of a list of category totals. -/
def sumTotals (l : List CategoryTotal) : ℚ := (l.map CategoryTotal.total).sum

/-- Sum of the count fields of a list of category totals. -/
def sumCounts (l : List CategoryTotal) : Nat := (l.map CategoryTotal.count).sum

/-- Categories of a list of category totals, in order. -/
def catsOf (l : List CategoryTotal) : List String := l.map CategoryTotal.category

theorem sumTotals_addExpense (acc : List CategoryTotal) (e : Expense) :
    sumTotals (addExpense acc e) = sumTotals acc + e.amount := by
  induction acc with
  | nil => simp [addExpense, sumTotals]
  | cons c cs ih =>
    by_cases h : c.category = e.category
    · simp only [addExpense, if_pos h, sumTotals, List.map_cons, List.sum_cons]
      simp only [sumTotals] at ih ⊢
      ring
    · simp only [addExpense, if_neg h, sumTotals, List.map_cons, List.sum_cons]
      simp only [sumTotals] at ih
      rw [ih]
      ring

theorem sumCounts_addExpense (acc : List CategoryTotal) (e : Expense) :
    sumCounts (addExpense acc e) = sumCounts acc + 1 := by
  induction acc with
  | nil => simp [addExpense, sumCounts]
  | cons c cs ih =>
    by_cases h : c.category = e.category
    · simp only [addExpense, if_pos h, sumCounts, List.map_cons, List.sum_cons]
      omega
    · simp only [addExpense, if_neg h, sumCounts, List.map_cons, List.sum_cons]
      simp only [sumCounts] at ih
      omega

theorem sumTotals_foldl (es : List Expense) :
    ∀ acc, sumTotals (es.foldl addExpense acc) =
      sumTotals acc + (es.map Expense.amount).sum := by
  induction es with
  | nil => intro acc; simp
  | cons e es ih =>
    intro acc
    simp only [List.foldl_cons, List.map_cons, List.sum_cons, ih, sumTotals_addExpense]
    ring

theorem sumCounts_foldl (es : List Expense) :
    ∀ acc, sumCounts (es.foldl addExpense acc) = sumCounts acc + es.length := by
  induction es with
  | nil => intro acc; simp
  | cons e es ih =>
    intro acc
    simp only [List.foldl_cons, List.length_cons, ih, sumCounts_addExpense]
    omega

theorem catsOf_addExpense_mem (acc : List CategoryTotal) (e : Expense) (x : String) :
    x ∈ catsOf (addExpense acc e) ↔ x ∈ catsOf acc ∨ x = e.category := by
  induction acc with
  | nil => simp [addExpense, catsOf]
  | cons c cs ih =>
    by_cases h : c.category = e.category
    · simp only [addExpense, if_pos h, catsOf, List.map_cons, List.mem_cons] at ih ⊢
      rw [h]
      tauto
    · simp only [addExpense, if_neg h, catsOf, List.map_cons, List.mem_cons] at ih ⊢
      rw [ih]
      tauto

theorem catsOf_addExpense_nodup (acc : List CategoryTotal) (e : Expense)
    (h : (catsOf acc).Nodup) : (catsOf (addExpense acc e)).Nodup := by
  induction acc with
  | nil => simp [addExpense, catsOf]
  | cons c cs ih =>
    simp only [catsOf, List.map_cons, List.nodup_cons] at h
    by_cases hc : c.category = e.category
    · simp only [addExpense, if_pos hc, catsOf, List.map_cons, List.nodup_cons]
      exact h
    · simp only [addExpense, if_neg hc, catsOf, List.map_cons, List.nodup_cons]
      refine ⟨?_, ih h.2⟩
      intro hm
      rcases (catsOf_addExpense_mem cs e c.category).mp hm with hin | heq
      · exact h.1 hin
      · exact hc heq

theorem catsOf_foldl_mem (es : List Expense) (x : String) :
    ∀ acc, x ∈ catsOf (es.foldl addExpense acc) ↔
      x ∈ catsOf acc ∨ ∃ e ∈ es, e.category = x := by
  induction es with
  | nil => intro acc; simp
  | cons e es ih =>
    intro acc
    simp only [List.foldl_cons, ih, catsOf_addExpense_mem, List.mem_cons]
    constructor
    · rintro ((hin | heq) | ⟨e2, he2, hx⟩)
      · exact Or.inl hin
      · exact Or.inr ⟨e, Or.inl rfl, heq.symm⟩
      · exact Or.inr ⟨e2, Or.inr he2, hx⟩
    · rintro (hin | ⟨e2, rfl | he2, hx⟩)
      · exact Or.inl (Or.inl hin)
      · exact Or.inl (Or.inr hx.symm)
      · exact Or.inr ⟨e2, he2, hx⟩

theorem catsOf_foldl_nodup (es : List Expense) :
    ∀ acc, (catsOf acc).Nodup → (catsOf (es.foldl addExpense acc)).Nodup := by
  induction es with
  | nil => intro acc h; exact h
  | cons e es ih =>
    intro acc h
    exact ih _ (catsOf_addExpense_nodup acc e h)

theorem insertDesc_perm (x : CategoryTotal) (l : List CategoryTotal) :
    List.Perm (insertDesc x l) (x :: l) := by
  induction l with
  | nil => exact List.Perm.refl _
  | cons y ys ih =>
    by_cases h : x.total < y.total
    · simp only [insertDesc, if_pos h]
      exact (ih.cons y).trans (List.Perm.swap x y ys)
    · simp only [insertDesc, if_neg h]
      exact List.Perm.refl _

theorem sortDesc_perm (l : List CategoryTotal) : List.Perm (sortDesc l) l := by
  induction l with
  | nil => exact List.Perm.refl _
  | cons x xs ih =>
    exact (insertDesc_perm x (sortDesc xs)).trans (ih.cons x)

theorem insertDesc_pairwise (x : CategoryTotal) (l : List CategoryTotal)
    (h : List.Pairwise (fun a b : CategoryTotal => b.total ≤ a.total) l) :
    List.Pairwise (fun a b : CategoryTotal => b.total ≤ a.total) (insertDesc x l) := by
  induction l with
  | nil => simp [insertDesc]
  | cons y ys ih =>
    rw [List.pairwise_cons] at h
    by_cases hc : x.total < y.total
    · simp only [insertDesc, if_pos hc, List.pairwise_cons]
      refine ⟨?_, ih h.2⟩
      intro z hz
      rcases List.mem_cons.mp ((insertDesc_perm x ys).mem_iff.mp hz) with hzx | hzy
      · exact le_of_lt (hzx ▸ hc)
      · exact h.1 z hzy
    · simp only [insertDesc, if_neg hc, List.pairwise_cons]
      refine ⟨?_, h⟩
      intro z hz
      rcases List.mem_cons.mp hz with hzy | hzys
      · exact hzy ▸ le_of_not_lt hc
      · exact le_trans (h.1 z hzys) (le_of_not_lt hc)

theorem sortDesc_pairwise (l : List CategoryTotal) :
    List.Pairwise (fun a b : CategoryTotal => b.total ≤ a.total) (sortDesc l) := by
  induction l with
  | nil => simp [sortDesc]
  | cons x xs ih => exact insertDesc_pairwise x (sortDesc xs) ih

theorem insertDesc_filter_eq (x : CategoryTotal) (l : List CategoryTotal) (t : ℚ)
    (hx : x.total = t) :
    (insertDesc x l).filter (fun c => decide (c.total = t)) =
      x :: l.filter (fun c => decide (c.total = t)) := by
  induction l with
  | nil => simp [insertDesc, hx]
  | cons y ys ih =>
    by_cases hc : x.total < y.total
    · have hyt : ¬(y.total = t) := by rw [← hx]; exact ne_of_gt hc
      simp only [insertDesc, if_pos hc, List.filter_cons]
      simp [hyt, ih]
    · simp only [insertDesc, if_neg hc, List.filter_cons]
      simp [hx]

theorem insertDesc_filter_ne (x : CategoryTotal) (l : List CategoryTotal) (t : ℚ)
    (hx : ¬(x.total = t)) :
    (insertDesc x l).filter (fun c => decide (c.total = t)) =
      l.filter (fun c => decide (c.total = t)) := by
  induction l with
  | nil => simp [insertDesc, hx]
  | cons y ys ih =>
    by_cases hc : x.total < y.total
    · simp only [insertDesc, if_pos hc, List.filter_cons, ih]
    · simp only [insertDesc, if_neg hc, List.filter_cons]
      simp [hx]

theorem sortDesc_filter (l : List CategoryTotal) (t : ℚ) :
    (sortDesc l).filter (fun c => decide (c.total = t)) =
      l.filter (fun c => decide (c.total = t)) := by
  induction l with
  | nil => rfl
  | cons x xs ih =>
    by_cases hx : x.total = t
    · rw [sortDesc, insertDesc_filter_eq x (sortDesc xs) t hx, ih, List.filter_cons]
      simp [hx]
    · rw [sortDesc, insertDesc_filter_ne x (sortDesc xs) t hx, ih, List.filter_cons]
      simp [hx]

/-- The categories of the aggregate output are exactly the input categories. -/
theorem catsOf_calc_mem (es : List Expense) (x : String) :
    x ∈ catsOf (calculate_category_totals es) ↔ ∃ e ∈ es, e.category = x := by
  have hperm := (sortDesc_perm (es.foldl addExpense [])).map CategoryTotal.category
  rw [calculate_category_totals, catsOf, hperm.mem_iff]
  have h2 := catsOf_foldl_mem es x []
  simp only [catsOf] at h2
  rw [h2]
  simp

/-- On inputs without TOTAL-labelled records the aggregate output carries no
TOTAL category. -/
theorem calc_no_total {es : List Expense}
    (h : ∀ e ∈ es, pyUpperStr e.category ≠ "TOTAL") :
    ∀ ct ∈ calculate_category_totals es, pyUpperStr ct.category ≠ "TOTAL" := by
  intro ct hct
  have hmem : ct.category ∈ catsOf (calculate_category_totals es) := by
    unfold catsOf
    exact List.mem_map_of_mem _ hct
  obtain ⟨e, he, heq⟩ := (catsOf_calc_mem es ct.category).mp hmem
  rw [← heq]
  exact h e he

/-! ### Claim C6: ordering of calculate_category_totals -/

/-- Worked record set of the specification (section 8). -/
def exampleExpenses : List Expense :=
  [{ date := ⟨0, 0⟩, category := "Food", amount := 25.50, notes := some "Lunch" },
   { date := ⟨1, 0⟩, category := "Gas", amount := 45.00, notes := some "Shell" },
   { date := ⟨2, 0⟩, category := "Food", amount := 15.75, notes := some "Coffee" },
   { date := ⟨3, 0⟩, category := "Entertainment", amount := 50.00, notes := some "Movie" }]

/-- C6: calculate_category_totals yields one total per distinct category (with the
categories of the output exactly those of the input), sorted by total descending;
since the sort is stable over the first-encounter aggregation order, ties keep the
order in which their categories first occur; and the worked example of the
specification evaluates to Entertainment 50.00 (1), Gas 45.00 (1), Food 41.25 (2). -/
theorem calculate_category_totals_spec :
    calculate_category_totals exampleExpenses =
      [{ category := "Entertainment", total := 50, count := 1 },
       { category := "Gas", total := 45, count := 1 },
       { category := "Food", total := 41.25, count := 2 }] ∧
    (∀ es, List.Pairwise (fun a b : CategoryTotal => b.total ≤ a.total)
      (calculate_category_totals es)) ∧
    (∀ es, List.Perm (calculate_category_totals es) (es.foldl addExpense [])) ∧
    (∀ es t, (calculate_category_totals es).filter (fun c => decide (c.total = t)) =
      (es.foldl addExpense []).filter (fun c => decide (c.total = t))) ∧
    (∀ es, (catsOf (calculate_category_totals es)).Nodup) ∧
    (∀ es x, x ∈ catsOf (calculate_category_totals es) ↔ ∃ e ∈ es, e.category = x) := by
  refine ⟨?_, fun es => sortDesc_pairwise _, fun es => sortDesc_perm _,
    fun es t => sortDesc_filter _ t, fun es => ?_, fun es x => catsOf_calc_mem es x⟩
  · norm_num [calculate_category_totals, exampleExpenses, addExpense, sortDesc, insertDesc]
  · exact ((sortDesc_perm _).map CategoryTotal.category).nodup_iff.mpr
      (catsOf_foldl_nodup es [] (by simp [catsOf]))

/-! ### Claim C7: exclusion of the TOTAL label from aggregation -/

/-- Record labelled TOTAL, as the exporter writes it. -/
def totalOnly : Expense :=
  { date := ⟨0, 0⟩, category := "TOTAL", amount := 5, notes := some "" }

/-- C7 counterexample: the aggregate functions themselves do not exclude the TOTAL
label; fed a list holding a TOTAL record, calculate_category_totals returns a TOTAL
category total and get_total_spending counts its (nonzero) amount. -/
theorem analyzer_counts_total_cex :
    (calculate_category_totals [totalOnly]).map CategoryTotal.category = ["TOTAL"] ∧
    get_total_spending [totalOnly] = 5 ∧ (5 : ℚ) ≠ 0 := by
  refine ⟨by decide, by norm_num [get_total_spending, totalOnly], by norm_num⟩

/-- C7 (amended): exclusion of the TOTAL label from aggregation is guaranteed
upstream rather than by the aggregate functions: over any record list without
TOTAL-labelled records — in particular over anything load_expenses returns — the
category totals contain no TOTAL entry, and total spending over a loaded record
set equals total spending over its records whose category is not TOTAL (load has
already stripped them). -/
theorem analyzer_total_excluded_upstream :
    (∀ es : List Expense, (∀ e ∈ es, pyUpperStr e.category ≠ "TOTAL") →
      ∀ ct ∈ calculate_category_totals es, pyUpperStr ct.category ≠ "TOTAL") ∧
    (∀ f : ExcelFile, ∀ ct ∈ calculate_category_totals (load_expenses f),
      pyUpperStr ct.category ≠ "TOTAL") ∧
    (∀ f : ExcelFile, get_total_spending (load_expenses f) =
      get_total_spending ((load_expenses f).filter
        (fun e => !(pyUpperStr e.category == "TOTAL")))) := by
  refine ⟨fun es h => calc_no_total h,
    fun f => calc_no_total (fun e he => (load_preconditions e he).2.1),
    fun f => ?_⟩
  have hself : (load_expenses f).filter
      (fun e => !(pyUpperStr e.category == "TOTAL")) = load_expenses f := by
    rw [List.filter_eq_self]
    intro e he
    simp only [Bool.not_eq_true', beq_eq_false_iff_ne]
    exact (load_preconditions e he).2.1
  rw [hself]

/-- Witness for C7 at a concrete record list and backing file. -/
theorem analyzer_total_excluded_upstream_witness :
    pyUpperStr (CategoryTotal.category ⟨"Food", 3, 1⟩) ≠ "TOTAL" ∧
    get_total_spending (load_expenses .missing) =
      get_total_spending ((load_expenses .missing).filter
        (fun e => !(pyUpperStr e.category == "TOTAL"))) :=
  ⟨analyzer_total_excluded_upstream.1
      [{ date := ⟨0, 0⟩, category := "Food", amount := 3, notes := some "" }]
      (by intro e he; simp at he; subst he; decide)
      ⟨"Food", 3, 1⟩ (by decide),
   analyzer_total_excluded_upstream.2.2 .missing⟩

/-! ### Claim C10: conservation of the aggregation -/

/-- C10: the totals of the category aggregation sum to the total spending of the
input, the counts sum to the number of input records, and no category occurs twice
in the output. -/
theorem aggregation_conservation (es : List Expense) :
    sumTotals (calculate_category_totals es) = get_total_spending es ∧
    sumCounts (calculate_category_totals es) = es.length ∧
    (catsOf (calculate_category_totals es)).Nodup := by
  have hperm := sortDesc_perm (es.foldl addExpense [])
  refine ⟨?_, ?_, ?_⟩
  · rw [show sumTotals (calculate_category_totals es) = sumTotals (es.foldl addExpense [])
      from (hperm.map CategoryTotal.total).sum_eq, sumTotals_foldl es []]
    simp [sumTotals, get_total_spending]
  · rw [show sumCounts (calculate_category_totals es) = sumCounts (es.foldl addExpense [])
      from (hperm.map CategoryTotal.count).sum_eq, sumCounts_foldl es []]
    simp [sumCounts]
  · exact ((hperm.map CategoryTotal.category).nodup_iff).mpr
      (catsOf_foldl_nodup es [] (by simp [catsOf]))

/-! ### Regex lemmas for the amount extractor -/

theorem isWordChar_of_digit {c : Char} (h : c.isDigit = true) : isWordChar c = true := by
  simp [isWordChar, Char.isAlphanum, h]

theorem not_digit_of_not_word {c : Char} (h : isWordChar c = false) : c.isDigit = false := by
  cases hd : c.isDigit
  · rfl
  · rw [isWordChar_of_digit hd] at h
    exact absurd h (by simp)

theorem headDigit_false_of_trailOk {post : List Char} (h : trailOk post = true) :
    headDigit post = false := by
  cases post with
  | nil => rfl
  | cons c r =>
    simp only [trailOk, Bool.not_eq_true'] at h
    simp [headDigit, not_digit_of_not_word h]

theorem takeDigits_eq_nil {l : List Char} (h : headDigit l = false) :
    takeDigits l = ([], l) := by
  cases l with
  | nil => rfl
  | cons c r =>
    simp only [headDigit] at h
    simp [takeDigits, h]

theorem takeDigits_append {ds rest : List Char}
    (hds : ∀ c ∈ ds, c.isDigit = true) (hrest : headDigit rest = false) :
    takeDigits (ds ++ rest) = (ds, rest) := by
  induction ds with
  | nil => simpa using takeDigits_eq_nil hrest
  | cons d ds ih =>
    have hd : d.isDigit = true := hds d (by simp)
    have hih := ih (fun c hc => hds c (by simp [hc]))
    simp [takeDigits, hd, hih]

/-- On text without a digit, the regex scan finds nothing. -/
theorem searchFrom_none_of_no_digit (cs : List Char) :
    ∀ prev, (∀ c ∈ cs, c.isDigit = false) → searchFrom prev cs = none := by
  induction cs with
  | nil => intro prev h; rfl
  | cons c cs ih =>
    intro prev h
    have hc : c.isDigit = false := h c (by simp)
    have hrest := ih (some c) (fun d hd => h d (by simp [hd]))
    simp [searchFrom, hc, hrest]

/-- Character preceding the position right after pre, when the scan entered pre
with prev before it. -/
def lastPrev (prev : Option Char) : List Char → Option Char
  | [] => prev
  | c :: cs => lastPrev (some c) cs

/-- Condition that the scan succeeds at no position inside the prefix pre when the
text continues with cs: each position of pre holds no digit, or sits at no word
boundary, or its match attempt fails. This is exactly what makes the token after
pre the first (leftmost) match of the regex. -/
def noMatchThroughB (prev : Option Char) : List Char → List Char → Bool
  | [], _ => true
  | c :: t, cs =>
    (!(c.isDigit && boundaryOkB prev) || (matchNumAt (c :: (t ++ cs))).isNone) &&
      noMatchThroughB (some c) t cs

/-- The scan walks through a prefix yielding no match without returning. -/
theorem searchFrom_skip_of_noMatch (pre : List Char) :
    ∀ (prev : Option Char) (cs : List Char), noMatchThroughB prev pre cs = true →
      searchFrom prev (pre ++ cs) = searchFrom (lastPrev prev pre) cs := by
  induction pre with
  | nil => intro prev cs _; rfl
  | cons c t ih =>
    intro prev cs h
    simp only [noMatchThroughB, Bool.and_eq_true] at h
    have hrec := ih (some c) cs h.2
    by_cases hcond : (c.isDigit && boundaryOkB prev) = true
    · have h1 := h.1
      rw [hcond, Bool.not_true, Bool.false_or] at h1
      have hnone : matchNumAt (c :: (t ++ cs)) = none :=
        Option.isNone_iff_eq_none.mp h1
      rw [List.cons_append]
      simp only [searchFrom]
      rw [if_pos hcond, hnone]
      exact hrec
    · rw [List.cons_append]
      simp only [searchFrom]
      rw [if_neg hcond]
      exact hrec

/-- The regex attempt at the start of a well-bounded numeric token succeeds and
matches exactly its digit groups; when the token is an integer followed by a dot
that opens no valid fractional group, the attempt falls back to the integer. -/
theorem matchNumAt_token {ds fs post : List Char}
    (hne : ds ≠ [])
    (hds : ∀ c ∈ ds, c.isDigit = true)
    (hfs : ∀ c ∈ fs, c.isDigit = true)
    (hlen : fs = [] ∨ fs.length = 1 ∨ fs.length = 2)
    (hpost : trailOk post = true)
    (hnofrac : fs = [] → post.head? = some '.' →
      (((takeDigits post.tail).1.length == 1 || (takeDigits post.tail).1.length == 2) &&
        trailOk (takeDigits post.tail).2) = false) :
    matchNumAt (ds ++ ((if fs.isEmpty then [] else '.' :: fs) ++ post)) = some (ds, fs) := by
  have hdse : ds.isEmpty = false := by
    cases ds
    · exact absurd rfl hne
    · rfl
  have hpostd : headDigit post = false := headDigit_false_of_trailOk hpost
  cases fs with
  | nil =>
    rw [show (if ([] : List Char).isEmpty then ([] : List Char) else '.' :: []) ++ post = post
      from rfl]
    have htake := takeDigits_append hds hpostd
    cases post with
    | nil =>
      rw [List.append_nil] at htake
      simp [matchNumAt, htake, hdse]
    | cons c r =>
      by_cases hc : c = '.'
      · subst hc
        have hnf := hnofrac rfl rfl
        simp only [List.tail_cons] at hnf
        simp [matchNumAt, htake, hdse, hnf]
      · simp [matchNumAt, htake, hdse, hc, hpost]
  | cons f fr =>
    rw [show (if (f :: fr).isEmpty then ([] : List Char) else '.' :: f :: fr) ++ post =
      '.' :: f :: (fr ++ post) from rfl]
    have htake : takeDigits (ds ++ '.' :: f :: (fr ++ post)) =
        (ds, '.' :: f :: (fr ++ post)) := takeDigits_append hds (by rfl)
    have htake2 : takeDigits (f :: (fr ++ post)) = (f :: fr, post) :=
      takeDigits_append hfs hpostd
    have hlen4 : fr = [] ∨ fr.length = 1 := by
      rcases hlen with h | h | h
      · exact absurd h (by simp)
      · refine Or.inl (List.length_eq_zero.mp ?_)
        simpa using h
      · refine Or.inr ?_
        simpa using h
    simp [matchNumAt, htake, hdse, htake2, hpost]
    intro hfr
    rcases hlen4 with h | h
    · exact absurd h hfr
    · exact h

/-! ### Claim C2: the word-to-number fallback and the 0.0 sentinel -/

/-- C2: on every text whose cleaned form contains no digit, parse_amount returns
the word-to-number value when one is recognized and exactly 0.0 otherwise; the
empty text also yields 0.0. The embedding is total, so a parse miss is a sentinel
value and never an exception. -/
theorem parse_amount_word_fallback :
    (∀ text : String, (∀ c ∈ (cleanStr text).toList, c.isDigit = false) →
      (∀ n : Nat, wordToNum (cleanStr text) = some n → parse_amount text = (n : ℚ)) ∧
      (wordToNum (cleanStr text) = none → parse_amount text = 0)) ∧
    parse_amount "twenty dollars" = 20 ∧
    parse_amount "" = 0 := by
  refine ⟨?_, ?_, by simp [parse_amount]⟩
  · intro text h
    have hre : regexSearch (cleanStr text).toList = none :=
      searchFrom_none_of_no_digit _ none h
    constructor
    · intro n hw
      by_cases hne : text = ""
      · subst hne
        rw [show cleanStr "" = "" from by decide,
          show wordToNum "" = none from by decide] at hw
        exact Option.noConfusion hw
      · exact parse_amount_of_words text n hne hre hw
    · intro hw
      exact parse_amount_of_miss text hre hw
  · exact (parse_amount_of_words _ 20 (by decide) (by decide) (by decide)).trans (by norm_num)

/-- Witness for C2 at concrete inputs. -/
theorem parse_amount_word_fallback_witness :
    parse_amount "Cost was fifteen bucks" = (15 : Nat) ∧
    parse_amount "Just went to the store" = 0 :=
  ⟨(parse_amount_word_fallback.1 "Cost was fifteen bucks" (by decide)).1 15 (by decide),
   (parse_amount_word_fallback.1 "Just went to the store" (by decide)).2 (by decide)⟩

/-! ### Claim C1: the first numeric token wins -/

/-- Formalisation of the claim sentence pattern: a numeric substring is a digit
string optionally followed by a dot and one or two decimal digits; its value is
returned alongside. -/
def numTokenVal (tok : List Char) : Option ℚ :=
  let p := takeDigits tok
  if p.1.isEmpty then none
  else
    match p.2 with
    | [] => some (tokenVal p.1 [])
    | c :: r2 =>
      if c == '.' then
        let q := takeDigits r2
        if !q.1.isEmpty && q.1.length ≤ 2 && q.2.isEmpty then some (tokenVal p.1 q.1)
        else none
      else none

/-- C1 counterexample: the cleaned form of abc123 contains the numeric substring
123, yet parse_amount returns the 0.0 sentinel rather than that number, because
the regex of the code demands a word boundary before the digits and the letter b
of the Python regex denies one after a letter. -/
theorem parse_amount_unbounded_substring_cex :
    (∃ pre tok post : List Char,
      (cleanStr "abc123").toList = pre ++ tok ++ post ∧ numTokenVal tok = some 123) ∧
    parse_amount "abc123" = 0 ∧ (123 : ℚ) ≠ 0 := by
  refine ⟨⟨['a', 'b', 'c'], ['1', '2', '3'], [], by decide, ?_⟩,
    parse_amount_of_miss _ (by decide) (by decide), by norm_num⟩
  rw [show numTokenVal ['1', '2', '3'] = some (tokenVal ['1', '2', '3'] []) from rfl]
  rw [show tokenVal ['1', '2', '3'] [] = ((123 : ℚ)) from by
    rw [tokenVal, show digitsVal ['1', '2', '3'] = 123 from by decide]
    norm_num [digitsVal]]

/-- C1 (amended): parse_amount returns the value of the leftmost word-bounded match
of the numeric pattern in the cleaned text. Splitting the cleaned text as pre,
token and post, where the scan succeeds at no position inside pre, the token starts
at a word boundary, consists of digits with an optional fractional part of one or
two digits, is followed by a word boundary, and, when it has no fractional part
and a dot follows, the dot opens no valid fractional group (the regex then keeps
the integer), parse_amount returns exactly the value of that token. -/
theorem parse_amount_first_bounded_token
    (text : String) (pre ds fs post : List Char)
    (hsplit : (cleanStr text).toList =
      pre ++ (ds ++ ((if fs.isEmpty then [] else '.' :: fs) ++ post)))
    (hnomatch : noMatchThroughB none pre
      (ds ++ ((if fs.isEmpty then [] else '.' :: fs) ++ post)) = true)
    (hbl : boundaryOkB (lastPrev none pre) = true)
    (hne : ds ≠ [])
    (hds : ∀ c ∈ ds, c.isDigit = true)
    (hfs : ∀ c ∈ fs, c.isDigit = true)
    (hlen : fs = [] ∨ fs.length = 1 ∨ fs.length = 2)
    (hpost : trailOk post = true)
    (hnofrac : fs = [] → post.head? = some '.' →
      (((takeDigits post.tail).1.length == 1 || (takeDigits post.tail).1.length == 2) &&
        trailOk (takeDigits post.tail).2) = false) :
    parse_amount text = tokenVal ds fs := by
  have htne : text ≠ "" := by
    intro h0
    subst h0
    rw [show (cleanStr "").toList = ([] : List Char) from by decide] at hsplit
    have h2 := hsplit.symm
    rw [List.append_eq_nil] at h2
    have h3 := h2.2
    rw [List.append_eq_nil] at h3
    exact hne h3.1
  apply parse_amount_of_regex text (ds, fs) htne
  rw [show regexSearch (cleanStr text).toList = searchFrom none (cleanStr text).toList
    from rfl, hsplit, searchFrom_skip_of_noMatch pre none _ hnomatch]
  obtain ⟨d, ds2, rfl⟩ : ∃ d ds2, ds = d :: ds2 := by
    cases ds
    · exact absurd rfl hne
    · exact ⟨_, _, rfl⟩
  have hd : d.isDigit = true := hds d (by simp)
  have hmatch : matchNumAt ((d :: ds2) ++ ((if fs.isEmpty then [] else '.' :: fs) ++ post)) =
      some (d :: ds2, fs) := matchNumAt_token hne hds hfs hlen hpost hnofrac
  rw [List.cons_append]
  rw [List.cons_append] at hmatch
  have hcond : (d.isDigit && boundaryOkB (lastPrev none pre)) = true := by
    rw [hd, hbl]
    rfl
  simp only [searchFrom]
  rw [if_pos hcond, hmatch]

/-- Witness for C1, derived from the theorem. The specification examples: the text
dollar 1,234.56 cleans to 1234.56 and yields 1234.56, and in 5 items for dollar 50
the first bounded token 5 wins over the later 50. In abc123 45 the digits 123 sit
against a letter and match nowhere, so the scan passes them and the first bounded
token 45 wins. -/
theorem parse_amount_first_bounded_token_witness :
    parse_amount "$1,234.56" = 1234.56 ∧ parse_amount "5 items for $50" = 5 ∧
    parse_amount "abc123 45" = 45 := by
  refine ⟨?_, ?_, ?_⟩
  · have h := parse_amount_first_bounded_token "$1,234.56" [] ['1', '2', '3', '4']
      ['5', '6'] [] (by decide) (by decide) (by decide) (by decide) (by decide)
      (by decide) (by decide) (by decide) (by decide)
    rw [h, tokenVal, show digitsVal ['1', '2', '3', '4'] = 1234 from by decide,
      show digitsVal ['5', '6'] = 56 from by decide]
    norm_num
  · have h := parse_amount_first_bounded_token "5 items for $50" [] ['5'] []
      " items for 50".toList (by decide) (by decide) (by decide) (by decide)
      (by decide) (by decide) (by decide) (by decide) (by decide)
    rw [h, tokenVal, show digitsVal ['5'] = 5 from by decide]
    norm_num [digitsVal]
  · have h := parse_amount_first_bounded_token "abc123 45" "abc123 ".toList
      ['4', '5'] [] [] (by decide) (by decide) (by decide) (by decide) (by decide)
      (by decide) (by decide) (by decide) (by decide)
    rw [h, tokenVal, show digitsVal ['4', '5'] = 45 from by decide]
    norm_num [digitsVal]

end SpendLens
